import Mathlib

/-
Verification of the resource-control layer of the `forum` repository:
the query cache (`server/queries/cached_queries.go`) and the token-bucket
rate limiter (`server/middleware`).

Modelling conventions:
* Go strings (cache keys) are modelled as `List Char`; `key[:n]` is
  `List.take n key` and Go string equality is `==`.
* `time.Time` is modelled as a `Nat` timestamp on a monotone clock;
  `time.Duration` quantities (`ttl`, `refillRate`) are `Nat` in the same
  unit.  `a.After(b)` is `b < a`; Go duration division is `Nat` division.
* The Go map backing each component is modelled as an association list;
  reachable Go map states have pairwise distinct keys, which appears as a
  `Nodup` hypothesis where a theorem needs it.
* A Go runtime panic is modelled as `Option.none`: `QueryCache.Invalidate`
  evaluates `key[:len(keyPrefix)]`, which panics (slice bounds out of
  range) when a stored key is shorter than the nonempty prefix.
-/

namespace Forum

/-- Go strings, as lists of characters. -/
abbrev Str := List Char

/-- Mirrors `cacheItem` of cached_queries.go: payload plus absolute expiry. -/
structure cacheItem (α : Type) where
  data : α
  expiresAt : Nat
deriving Repr, DecidableEq

/-- Mirrors `QueryCache`: the backing map (as an association list) and the
fixed ttl applied to every entry. -/
structure QueryCache (α : Type) where
  items : List (Str × cacheItem α)
  ttl : Nat
deriving Repr, DecidableEq

namespace QueryCache

variable {α : Type}

/-- Mirrors `QueryCache.Get`: look the key up, and treat the entry as absent
when `time.Now().After(item.expiresAt)`, i.e. when `item.expiresAt < now`
(strict).  The Go `(interface\x7b\x7d, bool)` pair is modelled as `Option`. -/
def Get (c : QueryCache α) (key : Str) (now : Nat) : Option α :=
  match c.items.find? (fun p => p.1 == key) with
  | none => none
  | some p => if p.2.expiresAt < now then none else some p.2.data

/-- Mirrors `QueryCache.Set`: insert or replace the entry for `key`, stamping
`expiresAt = now + ttl`. -/
def Set (c : QueryCache α) (key : Str) (data : α) (now : Nat) : QueryCache α :=
  { c with items := (key, ⟨data, now + c.ttl⟩) :: c.items.filter (fun p => !(p.1 == key)) }

/-- Mirrors `QueryCache.Invalidate`: for each stored key, Go evaluates
`len(keyPrefix) == 0 || key[:len(keyPrefix)] == keyPrefix` and deletes the
key when it holds.  When the prefix is nonempty and some stored key is
shorter than it, `key[:len(keyPrefix)]` panics; the panic is modelled as
`none` (partial deletions before the panic are not modelled). -/
def Invalidate (c : QueryCache α) (keyPfx : Str) : Option (QueryCache α) :=
  if keyPfx.length = 0 then
    some { c with items := [] }
  else if c.items.any (fun p => decide (p.1.length < keyPfx.length)) then
    none
  else
    some { c with items := c.items.filter (fun p => !(p.1.take keyPfx.length == keyPfx)) }

/-- Mirrors one pass of the `QueryCache.cleanup` goroutine body: physically
delete every entry with `now.After(item.expiresAt)`. -/
def cleanup (c : QueryCache α) (now : Nat) : QueryCache α :=
  { c with items := c.items.filter (fun p => !(decide (p.2.expiresAt < now))) }

end QueryCache

/-- Mirrors the cache-aside pattern shared by every `CachedPostQueryService`
wrapper (e.g. `GetAllPosts`): try the cache, on miss run the compute
operation once; cache only successful results.  `computeFn` is the
already-determined outcome of the wrapped query; the returned `Nat` counts
how many times the compute operation was invoked during the call. -/
def getOrCompute {α ε : Type} (c : QueryCache α) (key : Str) (computeFn : Except ε α)
    (now : Nat) : Except ε α × QueryCache α × Nat :=
  match c.Get key now with
  | some v => (Except.ok v, c, 0)
  | none =>
    match computeFn with
    | Except.error e => (Except.error e, c, 1)
    | Except.ok v => (Except.ok v, c.Set key v now, 1)

/-- Decimal key suffix used by the `fmt.Sprintf` cache keys. -/
def natKey (n : Nat) : Str := (Nat.repr n).toList

/-- Prefix `"user_%d"` from `InvalidateUserCache`. -/
def userPfx (u : Nat) : Str := "user_".toList ++ natKey u

/-- Key and prefix `"posts_created_user_%d"` (used both as the cache key of
`GetUserCreatedPosts` and as an invalidation prefix). -/
def createdKey (u : Nat) : Str := "posts_created_user_".toList ++ natKey u

/-- Key and prefix `"posts_liked_user_%d"` (used both as the cache key of
`GetUserLikedPosts` and as an invalidation prefix). -/
def likedKey (u : Nat) : Str := "posts_liked_user_".toList ++ natKey u

/-- Mirrors `CachedPostQueryService.InvalidateUserCache`: three successive
prefix invalidations; a panic in any of them aborts the sequence. -/
def InvalidateUserCache {α : Type} (c : QueryCache α) (u : Nat) : Option (QueryCache α) :=
  (c.Invalidate (userPfx u)).bind (fun c1 =>
    (c1.Invalidate (createdKey u)).bind (fun c2 =>
      c2.Invalidate (likedKey u)))

/-- Mirrors `visitor` of the rate-limiter middleware: remaining quota and
the time of the last top-up.  `tokens` is a Go `int`, modelled as `Int` so
that "never goes negative" is a real statement. -/
structure visitor where
  tokens : Int
  lastRefill : Nat
deriving Repr, DecidableEq

/-- Mirrors `RateLimiter`: the per-identity visitor map as an association
list. -/
structure RateLimiter where
  visitors : List (String × visitor)
deriving Repr, DecidableEq

/-- In-place mutation through the `*visitor` pointer held in the Go map:
every entry bound to `key` takes the new visitor value. -/
def updateVisitor (l : List (String × visitor)) (key : String) (v : visitor) :
    List (String × visitor) :=
  l.map (fun p => if p.1 == key then (key, v) else p)

/-- Refill block of `RateLimiter.Allow` (lines 52-60 of the middleware):
`tokensToAdd = elapsed / refillRate` (duration division truncates; `elapsed`
is nonnegative on the monotone clock); when positive, top up to at most
`maxTokens` and stamp `lastRefill = now`, otherwise leave the visitor
untouched. -/
def refillVisitor (v : visitor) (maxTokens : Int) (refillRate now : Nat) : visitor :=
  let elapsed : Nat := now - v.lastRefill
  let tokensToAdd : Int := Int.ofNat (elapsed / refillRate)
  if 0 < tokensToAdd then ⟨min (v.tokens + tokensToAdd) maxTokens, now⟩ else v

/-- Mirrors `RateLimiter.Allow`.  A fresh identity is created with
`maxTokens - 1` tokens and admitted.  Otherwise the visitor is lazily
refilled, then the call admits and decrements when `tokens > 0`, else
rejects. -/
def RateLimiter.Allow (rl : RateLimiter) (key : String) (maxTokens : Int)
    (refillRate : Nat) (now : Nat) : Bool × RateLimiter :=
  match rl.visitors.find? (fun p => p.1 == key) with
  | none => (true, ⟨(key, ⟨maxTokens - 1, now⟩) :: rl.visitors⟩)
  | some q =>
    let v1 : visitor := refillVisitor q.2 maxTokens refillRate now
    if 0 < v1.tokens then
      (true, ⟨updateVisitor rl.visitors key ⟨v1.tokens - 1, v1.lastRefill⟩⟩)
    else
      (false, ⟨updateVisitor rl.visitors key v1⟩)

/-- One call descriptor for a sequence of `Allow` calls:
(identity key, maxTokens, refillRate, call time). -/
abbrev AllowCall := String × Int × Nat × Nat

/-- Folds a sequence of `Allow` calls over a limiter state. -/
def applyCalls (rl : RateLimiter) (calls : List AllowCall) : RateLimiter :=
  calls.foldl (fun r c => (RateLimiter.Allow r c.1 c.2.1 c.2.2.1 c.2.2.2).2) rl

/-- Per-identity token bounds: every visitor entry for `key` holds between
0 and `maxT` tokens. -/
abbrev visitorInv (rl : RateLimiter) (key : String) (maxT : Int) : Prop :=
  ∀ p ∈ rl.visitors, p.1 = key → 0 ≤ p.2.tokens ∧ p.2.tokens ≤ maxT

/-! ### Helper lemmas -/

/-- On an association list with pairwise distinct keys, `find?` locates any
member whose first component is the sought key. -/
theorem find?_fst_of_mem_nodup {β γ : Type} [BEq β] [LawfulBEq β] {l : List (β × γ)} {k : β} {v : γ}
    (hnd : (l.map Prod.fst).Nodup) (hm : (k, v) ∈ l) :
    l.find? (fun p => p.1 == k) = some (k, v) := by
  induction l with
  | nil => cases hm
  | cons a t ih =>
    rw [List.map_cons, List.nodup_cons] at hnd
    rcases List.mem_cons.1 hm with h | h
    · subst h
      exact List.find?_cons_of_pos _ (by simp)
    · have hne : ¬(a.1 == k) = true := by
        simp only [beq_iff_eq]
        intro he
        exact hnd.1 (he ▸ List.mem_map.2 ⟨(k, v), h, rfl⟩)
      rw [@List.find?_cons_of_neg _ (fun p => p.1 == k) a t hne]
      exact ih hnd.2 h

/-- Whatever `Invalidate` returns contains only entries of the original
store, and none of them starts with the invalidated prefix. -/
theorem invalidate_some_mem {α : Type} {c c' : QueryCache α} {pfx : Str}
    (h : c.Invalidate pfx = some c') :
    ∀ p ∈ c'.items, p ∈ c.items ∧ p.1.take pfx.length ≠ pfx := by
  unfold QueryCache.Invalidate at h
  by_cases h0 : pfx.length = 0
  · rw [if_pos h0] at h
    cases h
    intro p hp
    cases hp
  · rw [if_neg h0] at h
    by_cases h1 : (c.items.any fun p => decide (p.1.length < pfx.length)) = true
    · rw [if_pos h1] at h
      cases h
    · rw [if_neg h1] at h
      cases h
      intro p hp
      rcases List.mem_filter.1 hp with ⟨hmem, hpred⟩
      exact ⟨hmem, by simpa using hpred⟩

/-- Appending a common left part preserves the take-equality form of the
"starts with" relation that `Invalidate` tests. -/
theorem take_append_of_take {l a b : Str} (h : b.take a.length = a) :
    (l ++ b).take (l ++ a).length = l ++ a := by
  rw [List.length_append, List.take_append_eq_append_take,
    List.take_of_length_le (by omega), Nat.add_sub_cancel_left, h]

/-! ### C1: the spec promises no failure outcome, but `Invalidate` panics -/

/-- C1: evaluation of the failing input.  With a single stored key `"a"`,
`Invalidate("ab")` evaluates `key[:2]` on a 1-character key and panics
(slice bounds out of range), modelled as `none`; the spec says every
Expiring Entry Store operation completes without any failure outcome. -/
theorem claim1_invalidate_panics_on_short_key :
    QueryCache.Invalidate (⟨[("a".toList, ⟨0, 0⟩)], 1⟩ : QueryCache Nat) "ab".toList = none := by
  decide

/-! ### C2: expiry at the exact instant `now = expiresAt` -/

/-- C2 counterexample: at the exact expiry instant (`now = expiresAt = 100`)
`Get` still returns the entry, because the code tests the strict
`time.Now().After(expiresAt)`; the claim demands `found = false` for every
`now ≥ expiresAt`. -/
theorem claim2_counterexample :
    QueryCache.Get (⟨[("k".toList, ⟨7, 100⟩)], 5⟩ : QueryCache Nat) "k".toList 100 = some 7 ∧
      100 ≤ 100 := by
  decide

/-- C2 amended: an entry is never returned once `now > expiresAt` (strictly
after the expiry instant), regardless of whether the reclaimer has
physically removed it. -/
theorem claim2_expired_never_returned {α : Type} (c : QueryCache α) (key : Str) (now : Nat)
    (p : Str × cacheItem α) (hf : c.items.find? (fun q => q.1 == key) = some p)
    (hexp : p.2.expiresAt < now) :
    c.Get key now = none := by
  unfold QueryCache.Get
  rw [hf]
  simp [hexp]

/-- C2 witness: concrete instance of `claim2_expired_never_returned`. -/
theorem claim2_witness :
    (⟨[("k".toList, ⟨7, 100⟩)], 5⟩ : QueryCache Nat).items.find?
        (fun q => q.1 == "k".toList) = some ("k".toList, ⟨7, 100⟩) ∧
      100 < 101 ∧
      QueryCache.Get (⟨[("k".toList, ⟨7, 100⟩)], 5⟩ : QueryCache Nat) "k".toList 101 = none :=
  ⟨by decide, by decide,
    claim2_expired_never_returned _ _ _ ("k".toList, ⟨7, 100⟩) (by decide) (by decide)⟩

/-! ### C5: prefix invalidation removes exactly the matching keys -/

/-- C5 counterexample: with the single stored key `"b/1"` (not matching the
prefix), `Invalidate("posts_")` does not leave the non-matching key
untouched — it panics (`none`), because the stored key is shorter than the
prefix. -/
theorem claim5_counterexample :
    QueryCache.Invalidate (⟨[("b/1".toList, ⟨0, 100⟩)], 5⟩ : QueryCache Nat)
      "posts_".toList = none := by
  decide

/-- C5 amended: provided no stored key is shorter than the prefix (otherwise
the operation panics), `Invalidate` completes and removes exactly the
entries whose key starts with the prefix, leaving every non-matching entry
untouched; the empty prefix removes all entries. -/
theorem claim5_amended {α : Type} (c : QueryCache α) (pfx : Str)
    (h : ∀ p ∈ c.items, pfx.length ≤ p.1.length) :
    ∃ c', c.Invalidate pfx = some c' ∧ c'.ttl = c.ttl ∧
      ∀ p, p ∈ c'.items ↔ (p ∈ c.items ∧ p.1.take pfx.length ≠ pfx) := by
  unfold QueryCache.Invalidate
  by_cases h0 : pfx.length = 0
  · rw [if_pos h0]
    refine ⟨_, rfl, rfl, ?_⟩
    intro p
    have hnil : pfx = [] := List.length_eq_zero.1 h0
    simp [h0, hnil]
  · have hany : c.items.any (fun p => decide (p.1.length < pfx.length)) = false := by
      rw [List.any_eq_false]
      intro p hp
      simpa using Nat.not_lt.2 (h p hp)
    rw [if_neg h0, hany]
    simp only [Bool.false_eq_true, if_false]
    refine ⟨_, rfl, rfl, ?_⟩
    intro p
    rw [List.mem_filter]
    simp

/-- C5 witness: the spec's own example — keys `a/1`, `a/2`, `b/1` and
prefix `"a/"` — instantiating `claim5_amended`. -/
theorem claim5_witness :
    (∀ p ∈ (⟨[("a/1".toList, ⟨1, 100⟩), ("a/2".toList, ⟨2, 100⟩), ("b/1".toList, ⟨3, 100⟩)],
        5⟩ : QueryCache Nat).items, ("a/".toList).length ≤ p.1.length) ∧
      (∃ c', (⟨[("a/1".toList, ⟨1, 100⟩), ("a/2".toList, ⟨2, 100⟩), ("b/1".toList, ⟨3, 100⟩)],
          5⟩ : QueryCache Nat).Invalidate "a/".toList = some c' ∧ c'.ttl = 5 ∧
        ∀ p, p ∈ c'.items ↔
          (p ∈ (⟨[("a/1".toList, ⟨1, 100⟩), ("a/2".toList, ⟨2, 100⟩), ("b/1".toList, ⟨3, 100⟩)],
            5⟩ : QueryCache Nat).items ∧ p.1.take ("a/".toList).length ≠ "a/".toList)) :=
  ⟨by decide, claim5_amended _ _ (by decide)⟩

/-! ### C9: a reclamation pass never changes `Get` -/

/-- C9: a cleanup pass at time `tc` (physically deleting every entry whose
expiry has passed) never changes the result of `Get` at any time
`now ≥ tc`: logical expiry is enforced at read time independently of the
reclaimer.  The `Nodup` hypothesis states that the association list models
a Go map (pairwise distinct keys). -/
theorem claim9_cleanup_preserves_get {α : Type} (c : QueryCache α) (key : Str) (tc now : Nat)
    (hnd : (c.items.map Prod.fst).Nodup) (h : tc ≤ now) :
    (c.cleanup tc).Get key now = c.Get key now := by
  have hcl : (c.cleanup tc).items = c.items.filter (fun p => !(decide (p.2.expiresAt < tc))) :=
    rfl
  unfold QueryCache.Get
  rw [hcl]
  cases hf : c.items.find? (fun p => p.1 == key) with
  | none =>
    have hall := List.find?_eq_none.1 hf
    have hnone : (c.items.filter (fun p => !(decide (p.2.expiresAt < tc)))).find?
        (fun p => p.1 == key) = none :=
      List.find?_eq_none.2 (fun q hq => hall q (List.mem_of_mem_filter hq))
    rw [hnone]
  | some p =>
    have hpk : p.1 = key := by simpa using List.find?_some hf
    have hpm : p ∈ c.items := List.mem_of_find?_eq_some hf
    by_cases hdrop : p.2.expiresAt < tc
    · have hfilter : (c.items.filter (fun q => !(decide (q.2.expiresAt < tc)))).find?
          (fun q => q.1 == key) = none := by
        apply List.find?_eq_none.2
        intro q hq
        rcases List.mem_filter.1 hq with ⟨hqm, hqpred⟩
        simp only [beq_iff_eq]
        intro hqk
        have hqp : q = p := List.inj_on_of_nodup_map hnd hqm hpm (by rw [hqk, hpk])
        subst hqp
        simp [hdrop] at hqpred
      rw [hfilter]
      have hexp : p.2.expiresAt < now := lt_of_lt_of_le hdrop h
      simp [hexp]
    · have hpmem : p ∈ c.items.filter (fun q => !(decide (q.2.expiresAt < tc))) :=
        List.mem_filter.2 ⟨hpm, by simp [hdrop]⟩
      have hndf : ((c.items.filter (fun q => !(decide (q.2.expiresAt < tc)))).map
          Prod.fst).Nodup :=
        List.Nodup.sublist (List.Sublist.map _ (List.filter_sublist _)) hnd
      have hp2 : p = (key, p.2) := by rw [← hpk]
      have hff : (c.items.filter (fun q => !(decide (q.2.expiresAt < tc)))).find?
          (fun q => q.1 == key) = some (key, p.2) :=
        find?_fst_of_mem_nodup hndf (hp2 ▸ hpmem)
      rw [hff, ← hp2]

/-- C9 witness: concrete instance of `claim9_cleanup_preserves_get` with one
expired and one live entry. -/
theorem claim9_witness :
    ((⟨[("a".toList, ⟨1, 5⟩), ("b".toList, ⟨2, 50⟩)], 5⟩ : QueryCache Nat).items.map
        Prod.fst).Nodup ∧
      10 ≤ 20 ∧
      ((⟨[("a".toList, ⟨1, 5⟩), ("b".toList, ⟨2, 50⟩)], 5⟩ : QueryCache Nat).cleanup 10).Get
          "a".toList 20 =
        (⟨[("a".toList, ⟨1, 5⟩), ("b".toList, ⟨2, 50⟩)], 5⟩ : QueryCache Nat).Get
          "a".toList 20 :=
  ⟨by decide, by decide,
    claim9_cleanup_preserves_get _ ("a".toList) 10 20 (by decide) (by decide)⟩

/-! ### C3: the getOrCompute contract -/

/-- C3: cache-aside contract of the wrapped query methods.  On a hit the
cached value is returned and the compute operation is not invoked (count 0);
on a miss the compute operation runs exactly once, its successful result is
stored under the key, and an immediately subsequent call (any time within
the TTL) returns the same value with the compute operation not invoked. -/
theorem claim3_get_or_compute_contract {α ε : Type} (c : QueryCache α) (key : Str)
    (now now' : Nat) (v : α) (f g : Except ε α) :
    (c.Get key now = some v → getOrCompute c key f now = (Except.ok v, c, 0)) ∧
    (c.Get key now = none →
      getOrCompute c key (Except.ok v : Except ε α) now = (Except.ok v, c.Set key v now, 1) ∧
      (now' ≤ now + c.ttl →
        getOrCompute (c.Set key v now) key g now' = (Except.ok v, c.Set key v now, 0))) := by
  constructor
  · intro hhit
    unfold getOrCompute
    rw [hhit]
  · intro hmiss
    constructor
    · unfold getOrCompute
      rw [hmiss]
    · intro hle
      have hget : (c.Set key v now).Get key now' = some v := by
        unfold QueryCache.Get QueryCache.Set
        rw [List.find?_cons_of_pos _ (by simp)]
        simp [Nat.not_lt.2 hle]
      unfold getOrCompute
      rw [hget]

/-- C3 witness: concrete instance of `claim3_get_or_compute_contract` on an
empty cache (miss, store, then hit). -/
theorem claim3_witness :
    (⟨[], 60⟩ : QueryCache Nat).Get "k".toList 0 = none ∧
      getOrCompute (⟨[], 60⟩ : QueryCache Nat) "k".toList (Except.ok 7 : Except Unit Nat) 0 =
        (Except.ok 7, (⟨[], 60⟩ : QueryCache Nat).Set "k".toList 7 0, 1) ∧
      (0 ≤ 0 + (⟨[], 60⟩ : QueryCache Nat).ttl ∧
        getOrCompute ((⟨[], 60⟩ : QueryCache Nat).Set "k".toList 7 0) "k".toList
            (Except.ok 9 : Except Unit Nat) 0 =
          (Except.ok 7, (⟨[], 60⟩ : QueryCache Nat).Set "k".toList 7 0, 0)) :=
  ⟨by decide,
    ((claim3_get_or_compute_contract (⟨[], 60⟩ : QueryCache Nat) "k".toList 0 0 7
        (Except.ok 9 : Except Unit Nat) (Except.ok 9 : Except Unit Nat)).2 (by decide)).1,
    by decide,
    ((claim3_get_or_compute_contract (⟨[], 60⟩ : QueryCache Nat) "k".toList 0 0 7
        (Except.ok 9 : Except Unit Nat) (Except.ok 9 : Except Unit Nat)).2 (by decide)).2
      (by decide)⟩

/-! ### C4: compute failures propagate and are not cached -/

/-- A miss stays a miss at any later time: keys absent or expired never
come back on their own. -/
theorem get_none_mono {α : Type} {c : QueryCache α} {key : Str} {now now' : Nat}
    (h : c.Get key now = none) (hle : now ≤ now') : c.Get key now' = none := by
  unfold QueryCache.Get at h ⊢
  cases hf : c.items.find? (fun p => p.1 == key) with
  | none => rfl
  | some p =>
    rw [hf] at h
    by_cases hexp : p.2.expiresAt < now
    · simp [lt_of_lt_of_le hexp hle]
    · simp [hexp] at h

/-- C4: if the compute operation fails, `getOrCompute` returns the error
unmodified and leaves the cache unchanged, so any subsequent identical call
(at any time `now' ≥ now`, with any compute outcome `g`) invokes the compute
operation again (invocation count 1). -/
theorem claim4_compute_error_propagates {α ε : Type} (c : QueryCache α) (key : Str)
    (now now' : Nat) (e : ε) (g : Except ε α)
    (h : c.Get key now = none) (hle : now ≤ now') :
    getOrCompute c key (Except.error e) now = (Except.error e, c, 1) ∧
      (getOrCompute c key g now').2.2 = 1 := by
  have h' : c.Get key now' = none := get_none_mono h hle
  constructor
  · unfold getOrCompute
    rw [h]
  · unfold getOrCompute
    rw [h']
    cases g <;> rfl

/-- C4 witness: concrete instance of `claim4_compute_error_propagates`. -/
theorem claim4_witness :
    (⟨[], 60⟩ : QueryCache Nat).Get "k".toList 0 = none ∧
      0 ≤ 3 ∧
      getOrCompute (⟨[], 60⟩ : QueryCache Nat) "k".toList
          (Except.error "boom" : Except String Nat) 0 =
        (Except.error "boom", (⟨[], 60⟩ : QueryCache Nat), 1) ∧
      (getOrCompute (⟨[], 60⟩ : QueryCache Nat) "k".toList
          (Except.error "boom" : Except String Nat) 3).2.2 = 1 :=
  ⟨by decide, by decide,
    (claim4_compute_error_propagates (⟨[], 60⟩ : QueryCache Nat) "k".toList 0 3 "boom"
        (Except.error "boom" : Except String Nat) (by decide) (by decide)).1,
    (claim4_compute_error_propagates (⟨[], 60⟩ : QueryCache Nat) "k".toList 0 3 "boom"
        (Except.error "boom" : Except String Nat) (by decide) (by decide)).2⟩

/-! ### C10: numeric key suffixes have no terminating delimiter -/

/-- C10 counterexample: for `u = 5`, `w = 55`, with exactly user 55's
created- and liked-posts entries cached, `InvalidateUserCache(5)` does not
remove them — it panics (`none`): the prefix `"posts_created_user_5"`
(20 chars) is longer than the stored key `"posts_liked_user_55"`
(19 chars), so the slice `key[:20]` is out of range. -/
theorem claim10_counterexample :
    InvalidateUserCache
      (⟨[(createdKey 55, ⟨1, 100⟩), (likedKey 55, ⟨2, 100⟩)], 5⟩ : QueryCache Nat) 5 =
      none := by
  decide

/-- C10 amended: for distinct user IDs `u`, `w` whose decimal forms make
`u` a leading substring of `w`, user `w`'s created- and liked-posts keys do
start with the prefixes `InvalidateUserCache(u)` sweeps (the numeric suffix
has no terminating delimiter), so whenever the invalidation completes
without the prefix-length panic, user `w`'s entries are removed as well. -/
theorem claim10_amended {α : Type} (u w : Nat) (_hne : u ≠ w)
    (hpre : (natKey w).take (natKey u).length = natKey u)
    (c c' : QueryCache α) (hc : InvalidateUserCache c u = some c') :
    (createdKey w).take (createdKey u).length = createdKey u ∧
      (likedKey w).take (likedKey u).length = likedKey u ∧
      ∀ p ∈ c'.items, p.1 ≠ createdKey w ∧ p.1 ≠ likedKey w := by
  have hcr : (createdKey w).take (createdKey u).length = createdKey u :=
    take_append_of_take hpre
  have hlk : (likedKey w).take (likedKey u).length = likedKey u :=
    take_append_of_take hpre
  refine ⟨hcr, hlk, ?_⟩
  unfold InvalidateUserCache at hc
  rcases Option.bind_eq_some.1 hc with ⟨c1, h1, hc1⟩
  rcases Option.bind_eq_some.1 hc1 with ⟨c2, h2, h3⟩
  intro p hp
  have hstep3 := invalidate_some_mem h3 p hp
  have hstep2 := invalidate_some_mem h2 p hstep3.1
  constructor
  · intro hpw
    exact hstep2.2 (by rw [hpw, hcr])
  · intro hpw
    exact hstep3.2 (by rw [hpw, hlk])

/-- C10 witness: `u = 5`, `w = 555` (decimal-prefix pair for which the
invalidation completes): both of user 555's entries are removed by
`InvalidateUserCache(5)`. -/
theorem claim10_witness :
    (5 : Nat) ≠ 555 ∧
      (natKey 555).take (natKey 5).length = natKey 5 ∧
      InvalidateUserCache
          (⟨[(createdKey 555, ⟨1, 100⟩), (likedKey 555, ⟨2, 100⟩)], 5⟩ : QueryCache Nat) 5 =
        some (⟨[], 5⟩ : QueryCache Nat) ∧
      (∀ p ∈ (⟨[], 5⟩ : QueryCache Nat).items,
        p.1 ≠ createdKey 555 ∧ p.1 ≠ likedKey 555) :=
  ⟨by decide, by decide, by decide,
    (claim10_amended 5 555 (by decide) (by decide)
        (⟨[(createdKey 555, ⟨1, 100⟩), (likedKey 555, ⟨2, 100⟩)], 5⟩ : QueryCache Nat)
        (⟨[], 5⟩ : QueryCache Nat) (by decide)).2.2⟩

/-! ### Rate limiter helper lemmas -/

/-- Mapping a function that fixes every element of a list is the identity. -/
theorem map_eq_self_of {β : Type} {f : β → β} {l : List β} (h : ∀ a ∈ l, f a = a) :
    l.map f = l := by
  induction l with
  | nil => rfl
  | cons a t ih =>
    rw [List.map_cons, h a (List.mem_cons_self a t),
      ih (fun b hb => h b (List.mem_cons_of_mem a hb))]

/-- `find?` on a list headed by the sought key returns the head. -/
theorem find?_self_cons (key : String) (v : visitor) (l : List (String × visitor)) :
    List.find? (fun p => p.1 == key) ((key, v) :: l) = some (key, v) :=
  List.find?_cons_of_pos _ (by simp)

/-- Updating a key that does not occur in the visitor list is a no-op. -/
theorem updateVisitor_of_find?_none {l : List (String × visitor)} {key : String}
    (v : visitor) (h : List.find? (fun p => p.1 == key) l = none) :
    updateVisitor l key v = l := by
  have hall := List.find?_eq_none.1 h
  exact map_eq_self_of (fun p hp => if_neg (hall p hp))

/-- Updating the key of the head entry replaces the head and leaves a
key-free tail unchanged. -/
theorem updateVisitor_cons_self (key : String) (v w : visitor) (l : List (String × visitor))
    (hl : List.find? (fun p => p.1 == key) l = none) :
    updateVisitor ((key, v) :: l) key w = (key, w) :: l := by
  unfold updateVisitor
  rw [List.map_cons]
  have h1 : (if ((key, v).1 == key) then (key, w) else (key, v)) = (key, w) := by simp
  rw [h1]
  exact congrArg _ (updateVisitor_of_find?_none w hl)

/-- One `Allow` step against the sole visitor entry for `key` when less than
one refill interval has elapsed since `lastRefill`: no refill happens, the
call admits-and-decrements iff `tokens > 0`, and otherwise changes
nothing. -/
theorem allow_step (l : List (String × visitor)) (key : String)
    (hl : List.find? (fun p => p.1 == key) l = none)
    (tok maxT : Int) (t0 rate now : Nat) (hdiv : (now - t0) / rate = 0) :
    RateLimiter.Allow ⟨(key, ⟨tok, t0⟩) :: l⟩ key maxT rate now =
      if 0 < tok then (true, ⟨(key, ⟨tok - 1, t0⟩) :: l⟩)
      else (false, ⟨(key, ⟨tok, t0⟩) :: l⟩) := by
  have hv1 : refillVisitor ⟨tok, t0⟩ maxT rate now = ⟨tok, t0⟩ := by
    unfold refillVisitor
    simp [hdiv]
  simp only [RateLimiter.Allow, find?_self_cons, hv1]
  by_cases htok : (0:Int) < tok
  · rw [if_pos htok, if_pos htok, updateVisitor_cons_self key ⟨tok, t0⟩ ⟨tok - 1, t0⟩ l hl]
  · rw [if_neg htok, if_neg htok, updateVisitor_cons_self key ⟨tok, t0⟩ ⟨tok, t0⟩ l hl]

/-! ### C6: 5 requests per minute? -/

/-- C6 counterexample: with `maxTokens = 5` and `window = 1 minute` (so
`refillRate = window / maxTokens = 12 s`, as the `RateLimit` middleware
computes it), a fresh identity makes 5 admitted calls at `t = 0` and a 6th
call at `t = 59 s` — within the same minute — which is ADMITTED (the bucket
refilled `floor(59/12) = 4` tokens), contradicting the claimed 6th-call
rejection. -/
theorem claim6_counterexample :
    (RateLimiter.Allow ⟨[]⟩ "ip" 5 12 0).1 = true ∧
      (RateLimiter.Allow (RateLimiter.Allow ⟨[]⟩ "ip" 5 12 0).2 "ip" 5 12 0).1 = true ∧
      (RateLimiter.Allow (RateLimiter.Allow (RateLimiter.Allow ⟨[]⟩ "ip" 5 12 0).2 "ip" 5
        12 0).2 "ip" 5 12 0).1 = true ∧
      (RateLimiter.Allow (RateLimiter.Allow (RateLimiter.Allow (RateLimiter.Allow ⟨[]⟩ "ip"
        5 12 0).2 "ip" 5 12 0).2 "ip" 5 12 0).2 "ip" 5 12 0).1 = true ∧
      (RateLimiter.Allow (RateLimiter.Allow (RateLimiter.Allow (RateLimiter.Allow
        (RateLimiter.Allow ⟨[]⟩ "ip" 5 12 0).2 "ip" 5 12 0).2 "ip" 5 12 0).2 "ip" 5 12
        0).2 "ip" 5 12 0).1 = true ∧
      (RateLimiter.Allow (RateLimiter.Allow (RateLimiter.Allow (RateLimiter.Allow
        (RateLimiter.Allow (RateLimiter.Allow ⟨[]⟩ "ip" 5 12 0).2 "ip" 5 12 0).2 "ip" 5 12
        0).2 "ip" 5 12 0).2 "ip" 5 12 0).2 "ip" 5 12 59).1 = true := by
  decide

/-- C6 amended: with `maxTokens = 5`, `window = 1 minute`,
`refillRate = 12 s`, the first 5 calls for a fresh identity are admitted and
a 6th call is rejected provided every call happens less than one refill
interval (12 s) after the first; a 6th call later in the same minute can be
admitted because tokens refill continuously at one per 12 s
(see `claim6_counterexample`). -/
theorem claim6_amended (rl : RateLimiter) (key : String)
    (hfresh : rl.visitors.find? (fun p => p.1 == key) = none)
    (t0 t1 t2 t3 t4 t5 : Nat) (hlt1 : t1 - t0 < 12) (hlt2 : t2 - t0 < 12)
    (hlt3 : t3 - t0 < 12) (hlt4 : t4 - t0 < 12) (hlt5 : t5 - t0 < 12) :
    (RateLimiter.Allow rl key 5 12 t0).1 = true ∧
      (RateLimiter.Allow (RateLimiter.Allow rl key 5 12 t0).2 key 5 12 t1).1 = true ∧
      (RateLimiter.Allow (RateLimiter.Allow (RateLimiter.Allow rl key 5 12 t0).2 key 5 12
        t1).2 key 5 12 t2).1 = true ∧
      (RateLimiter.Allow (RateLimiter.Allow (RateLimiter.Allow (RateLimiter.Allow rl key 5
        12 t0).2 key 5 12 t1).2 key 5 12 t2).2 key 5 12 t3).1 = true ∧
      (RateLimiter.Allow (RateLimiter.Allow (RateLimiter.Allow (RateLimiter.Allow
        (RateLimiter.Allow rl key 5 12 t0).2 key 5 12 t1).2 key 5 12 t2).2 key 5 12 t3).2
        key 5 12 t4).1 = true ∧
      (RateLimiter.Allow (RateLimiter.Allow (RateLimiter.Allow (RateLimiter.Allow
        (RateLimiter.Allow (RateLimiter.Allow rl key 5 12 t0).2 key 5 12 t1).2 key 5 12
        t2).2 key 5 12 t3).2 key 5 12 t4).2 key 5 12 t5).1 = false := by
  have e1 : RateLimiter.Allow rl key 5 12 t0 = (true, ⟨(key, ⟨4, t0⟩) :: rl.visitors⟩) := by
    simp only [RateLimiter.Allow, hfresh]
    norm_num
  have e2 : RateLimiter.Allow ⟨(key, ⟨4, t0⟩) :: rl.visitors⟩ key 5 12 t1 =
      (true, ⟨(key, ⟨3, t0⟩) :: rl.visitors⟩) := by
    rw [allow_step rl.visitors key hfresh 4 5 t0 12 t1 (Nat.div_eq_of_lt hlt1)]
    norm_num
  have e3 : RateLimiter.Allow ⟨(key, ⟨3, t0⟩) :: rl.visitors⟩ key 5 12 t2 =
      (true, ⟨(key, ⟨2, t0⟩) :: rl.visitors⟩) := by
    rw [allow_step rl.visitors key hfresh 3 5 t0 12 t2 (Nat.div_eq_of_lt hlt2)]
    norm_num
  have e4 : RateLimiter.Allow ⟨(key, ⟨2, t0⟩) :: rl.visitors⟩ key 5 12 t3 =
      (true, ⟨(key, ⟨1, t0⟩) :: rl.visitors⟩) := by
    rw [allow_step rl.visitors key hfresh 2 5 t0 12 t3 (Nat.div_eq_of_lt hlt3)]
    norm_num
  have e5 : RateLimiter.Allow ⟨(key, ⟨1, t0⟩) :: rl.visitors⟩ key 5 12 t4 =
      (true, ⟨(key, ⟨0, t0⟩) :: rl.visitors⟩) := by
    rw [allow_step rl.visitors key hfresh 1 5 t0 12 t4 (Nat.div_eq_of_lt hlt4)]
    norm_num
  have e6 : RateLimiter.Allow ⟨(key, ⟨0, t0⟩) :: rl.visitors⟩ key 5 12 t5 =
      (false, ⟨(key, ⟨0, t0⟩) :: rl.visitors⟩) := by
    rw [allow_step rl.visitors key hfresh 0 5 t0 12 t5 (Nat.div_eq_of_lt hlt5)]
    norm_num
  refine ⟨?_, ?_, ?_, ?_, ?_, ?_⟩ <;> simp [e1, e2, e3, e4, e5, e6]

/-- C6 amended witness: the six calls at `t = 0,1,2,3,4,11` seconds. -/
theorem claim6_amended_witness :
    (RateLimiter.mk []).visitors.find? (fun p => p.1 == "ip") = none ∧
      ((RateLimiter.Allow ⟨[]⟩ "ip" 5 12 0).1 = true ∧
        (RateLimiter.Allow (RateLimiter.Allow ⟨[]⟩ "ip" 5 12 0).2 "ip" 5 12 1).1 = true ∧
        (RateLimiter.Allow (RateLimiter.Allow (RateLimiter.Allow ⟨[]⟩ "ip" 5 12 0).2 "ip" 5
          12 1).2 "ip" 5 12 2).1 = true ∧
        (RateLimiter.Allow (RateLimiter.Allow (RateLimiter.Allow (RateLimiter.Allow ⟨[]⟩
          "ip" 5 12 0).2 "ip" 5 12 1).2 "ip" 5 12 2).2 "ip" 5 12 3).1 = true ∧
        (RateLimiter.Allow (RateLimiter.Allow (RateLimiter.Allow (RateLimiter.Allow
          (RateLimiter.Allow ⟨[]⟩ "ip" 5 12 0).2 "ip" 5 12 1).2 "ip" 5 12 2).2 "ip" 5 12
          3).2 "ip" 5 12 4).1 = true ∧
        (RateLimiter.Allow (RateLimiter.Allow (RateLimiter.Allow (RateLimiter.Allow
          (RateLimiter.Allow (RateLimiter.Allow ⟨[]⟩ "ip" 5 12 0).2 "ip" 5 12 1).2 "ip" 5
          12 2).2 "ip" 5 12 3).2 "ip" 5 12 4).2 "ip" 5 12 11).1 = false) :=
  ⟨rfl, claim6_amended ⟨[]⟩ "ip" rfl 0 1 2 3 4 11 (by decide) (by decide) (by decide)
    (by decide) (by decide)⟩

/-! ### C7: token bounds invariant -/

/-- Refilling preserves the `[0, maxT]` token bounds. -/
theorem refillVisitor_bounds (v : visitor) (maxT : Int) (rate now : Nat)
    (hmax : 1 ≤ maxT) (h0 : 0 ≤ v.tokens) (h1 : v.tokens ≤ maxT) :
    0 ≤ (refillVisitor v maxT rate now).tokens ∧
      (refillVisitor v maxT rate now).tokens ≤ maxT := by
  unfold refillVisitor
  by_cases hadd : (0:Int) < Int.ofNat ((now - v.lastRefill) / rate)
  · rw [if_pos hadd]
    have hnn : (0:Int) ≤ Int.ofNat ((now - v.lastRefill) / rate) := Int.ofNat_nonneg _
    exact ⟨le_min (by omega) (by omega), min_le_right _ _⟩
  · rw [if_neg hadd]
    exact ⟨h0, h1⟩

/-- Pointer-style update preserves the per-key token bounds as long as the
written value satisfies them when it lands on `key`. -/
theorem updateVisitor_inv (l : List (String × visitor)) (key k' : String) (maxT : Int)
    (w : visitor) (hinv : ∀ p ∈ l, p.1 = key → 0 ≤ p.2.tokens ∧ p.2.tokens ≤ maxT)
    (hw : k' = key → 0 ≤ w.tokens ∧ w.tokens ≤ maxT) :
    ∀ p ∈ updateVisitor l k' w, p.1 = key → 0 ≤ p.2.tokens ∧ p.2.tokens ≤ maxT := by
  intro p hp hpk
  rcases List.mem_map.1 hp with ⟨q, hq, hfq⟩
  by_cases hqk : (q.1 == k') = true
  · rw [if_pos hqk] at hfq
    rw [← hfq] at hpk ⊢
    exact hw hpk
  · rw [if_neg hqk] at hfq
    rw [← hfq] at hpk ⊢
    exact hinv q hq hpk

/-- A single `Allow` call — for any identity, with this identity's tier
parameters whenever it targets `key` — preserves the per-key token
bounds. -/
theorem allow_preserves_inv (rl : RateLimiter) (key k' : String) (maxT maxT' : Int)
    (rate now : Nat) (hmax : 1 ≤ maxT) (htier : k' = key → maxT' = maxT)
    (hinv : visitorInv rl key maxT) :
    visitorInv (RateLimiter.Allow rl k' maxT' rate now).2 key maxT := by
  cases hf : rl.visitors.find? (fun p => p.1 == k') with
  | none =>
    simp only [RateLimiter.Allow, hf]
    intro p hp hpk
    rcases List.mem_cons.1 hp with h | h
    · rw [h] at hpk ⊢
      have hmt := htier hpk
      dsimp
      omega
    · exact hinv p h hpk
  | some q =>
    have hq1 : q.1 = k' := by simpa using List.find?_some hf
    have hqm : q ∈ rl.visitors := List.mem_of_find?_eq_some hf
    have hqb : k' = key → 0 ≤ q.2.tokens ∧ q.2.tokens ≤ maxT := by
      intro hk
      exact hinv q hqm (hq1.trans hk)
    simp only [RateLimiter.Allow, hf]
    by_cases htok : 0 < (refillVisitor q.2 maxT' rate now).tokens
    · rw [if_pos htok]
      apply updateVisitor_inv _ _ _ _ _ hinv
      intro hk
      subst hk
      rw [htier rfl] at htok ⊢
      have hb := refillVisitor_bounds q.2 maxT rate now hmax (hqb rfl).1 (hqb rfl).2
      dsimp
      omega
    · rw [if_neg htok]
      apply updateVisitor_inv _ _ _ _ _ hinv
      intro hk
      subst hk
      rw [htier rfl] at htok ⊢
      exact refillVisitor_bounds q.2 maxT rate now hmax (hqb rfl).1 (hqb rfl).2

/-- C7: over every sequence of `Allow` calls — calls targeting this identity
all carrying its configured tier maximum `maxT ≥ 1` — the identity's token
count stays within `[0, maxT]`: it never exceeds the configured maximum and
never goes negative (a request is rejected rather than driving the count
below zero). -/
theorem claim7_tokens_bounded (key : String) (maxT : Int) (hmax : 1 ≤ maxT)
    (calls : List AllowCall) (htier : ∀ c ∈ calls, c.1 = key → c.2.1 = maxT)
    (rl : RateLimiter) (hinv : visitorInv rl key maxT) :
    visitorInv (applyCalls rl calls) key maxT := by
  induction calls generalizing rl with
  | nil => exact hinv
  | cons c t ih =>
    have hstep := allow_preserves_inv rl key c.1 maxT c.2.1 c.2.2.1 c.2.2.2 hmax
      (fun h => htier c (List.mem_cons_self c t) h) hinv
    exact ih (fun d hd h => htier d (List.mem_cons_of_mem c hd) h) _ hstep

/-- C7 witness: concrete instance of `claim7_tokens_bounded` over a short
call sequence from an empty limiter. -/
theorem claim7_witness :
    (1:Int) ≤ 5 ∧
      (∀ c ∈ ([("a", 5, 12, 0), ("a", 5, 12, 1), ("b", 3, 12, 1)] : List AllowCall),
        c.1 = "a" → c.2.1 = 5) ∧
      visitorInv ⟨[]⟩ "a" 5 ∧
      visitorInv (applyCalls ⟨[]⟩ [("a", 5, 12, 0), ("a", 5, 12, 1), ("b", 3, 12, 1)])
        "a" 5 :=
  ⟨by decide, by decide, by decide,
    claim7_tokens_bounded "a" 5 (by decide)
      [("a", 5, 12, 0), ("a", 5, 12, 1), ("b", 3, 12, 1)] (by decide) ⟨[]⟩ (by decide)⟩

/-! ### C8: a rejected call leaves the state untouched -/

/-- C8: whenever `Allow` returns `false`, the limiter state after the call
is exactly what it was before it: under the reachable-state facts that the
visitor map has pairwise distinct keys, the identity's token count is
nonnegative and its configured maximum is at least 1, a rejection happens
only when no refill occurred and `tokens = 0`, and then nothing is
modified. -/
theorem claim8_reject_frame (rl : RateLimiter) (key : String) (maxT : Int)
    (rate now : Nat) (hnd : (rl.visitors.map Prod.fst).Nodup) (hmax : 1 ≤ maxT)
    (hinv : ∀ p ∈ rl.visitors, p.1 = key → 0 ≤ p.2.tokens)
    (hrej : (RateLimiter.Allow rl key maxT rate now).1 = false) :
    (RateLimiter.Allow rl key maxT rate now).2 = rl := by
  cases hf : rl.visitors.find? (fun p => p.1 == key) with
  | none =>
    simp only [RateLimiter.Allow, hf] at hrej
    cases hrej
  | some q =>
    have hq1 : q.1 = key := by simpa using List.find?_some hf
    have hqm : q ∈ rl.visitors := List.mem_of_find?_eq_some hf
    have hq0 : 0 ≤ q.2.tokens := hinv q hqm hq1
    simp only [RateLimiter.Allow, hf] at hrej ⊢
    by_cases hadd : (0:Int) < Int.ofNat ((now - q.2.lastRefill) / rate)
    · exfalso
      have hpos : 0 < (refillVisitor q.2 maxT rate now).tokens := by
        unfold refillVisitor
        rw [if_pos hadd]
        exact lt_min (by omega) (by omega)
      rw [if_pos hpos] at hrej
      cases hrej
    · have hv1 : refillVisitor q.2 maxT rate now = q.2 := by
        unfold refillVisitor
        rw [if_neg hadd]
      rw [hv1] at hrej ⊢
      by_cases htok : 0 < q.2.tokens
      · rw [if_pos htok] at hrej
        cases hrej
      · rw [if_neg htok] at hrej ⊢
        have hupd : updateVisitor rl.visitors key q.2 = rl.visitors := by
          apply map_eq_self_of
          intro p hp
          by_cases hpk : (p.1 == key) = true
          · rw [if_pos hpk]
            have hpq : p = q := by
              apply List.inj_on_of_nodup_map hnd hp hqm
              rw [beq_iff_eq] at hpk
              rw [hpk, hq1]
            rw [hpq, ← hq1]
          · rw [if_neg hpk]
        show (⟨updateVisitor rl.visitors key q.2⟩ : RateLimiter) = rl
        rw [hupd]

/-- C8 witness: concrete instance of `claim8_reject_frame` — a depleted
visitor is rejected at `t = 5 s` (elapsed less than one refill interval)
and the limiter state is unchanged. -/
theorem claim8_witness :
    ((RateLimiter.mk [("a", ⟨0, 0⟩)]).visitors.map Prod.fst).Nodup ∧
      (1:Int) ≤ 5 ∧
      (∀ p ∈ (RateLimiter.mk [("a", ⟨0, 0⟩)]).visitors, p.1 = "a" → 0 ≤ p.2.tokens) ∧
      (RateLimiter.Allow ⟨[("a", ⟨0, 0⟩)]⟩ "a" 5 12 5).1 = false ∧
      (RateLimiter.Allow ⟨[("a", ⟨0, 0⟩)]⟩ "a" 5 12 5).2 = ⟨[("a", ⟨0, 0⟩)]⟩ :=
  ⟨by decide, by decide, by decide, by decide,
    claim8_reject_frame ⟨[("a", ⟨0, 0⟩)]⟩ "a" 5 12 5 (by decide) (by decide) (by decide)
      (by decide)⟩

end Forum
